import Mathlib

/-!
Verification of the `k8s` package: the `NormYAML` canonicalizer and the
`KubeConfig` configuration model (`src/k8s.go`, `src/unnamed/part_000`).

The Go code delegates YAML (de)serialization to two external codecs
(`sigs.k8s.io/yaml` for `NormYAML`, `gopkg.in/yaml.v2` for the
configuration model).  Those libraries are not part of this repository,
so they are embedded as follows: `NormYAML` is parameterized over an
unmarshal and a marshal function (its own control flow is translated
literally from the Go), and the configuration model works on a generic
YAML value tree (`YVal`), with the struct-tag driven (de)serialization
of `gopkg.in/yaml.v2` translated at the tree level.  A small concrete
codec (`kUnmarshal` / `kMarshal`), modelled from the spec's description
of the canonical codec, provides executable instances for concrete
evaluations.
-/

set_option autoImplicit false

namespace K8s

/-- A generic YAML document tree: scalar, sequence, or mapping of
arbitrary depth (the spec's **Document**, the Go `any` the decoders fill
in).  Mappings are ordered lists of key/value pairs. -/
inductive YVal where
  | null
  | bool (b : Bool)
  | num (n : Int)
  | str (s : String)
  | arr (items : List YVal)
  | obj (fields : List (String × YVal))
  deriving Repr, Inhabited, BEq

/-- `NormYAML` translated from `src/k8s.go` lines 24-38: unmarshal the
input, marshal it back, and collapse the canonical empty-mapping
encoding `"\x7b\x7d\n"` to the empty byte sequence.  The two codec
functions stand for `kyaml.Unmarshal` / `kyaml.Marshal` of the external
`sigs.k8s.io/yaml` package. -/
def NormYAML (unmarshal : String → Except String YVal)
    (marshal : YVal → Except String String) (y : String) :
    Except String String :=
  match unmarshal y with
  | .error e => .error e
  | .ok buf =>
    match marshal buf with
    | .error e => .error e
    | .ok encoded =>
      if encoded = "\x7b\x7d\n" then .ok "" else .ok encoded

/-! ### A concrete modelled canonical codec

Modelled from the spec: the external `sigs.k8s.io/yaml` codec is not
part of this repository, so a small executable fragment of it is defined
here from the spec's description ("fixed indentation, fixed key ordering
rules, fixed scalar quoting rules", empty mapping encoded as a bare
`\x7b\x7d` plus newline, empty input decoded as the null document).  The
fragment covers null, scalar, flat-mapping and empty-collection
documents; the canonical encoder sorts mapping keys (as the JSON
round-trip inside `sigs.k8s.io/yaml` does). -/

/-- Map an error-returning function over a list, stopping at the first
error (the plumbing shared by every decoder below). -/
def mapEx {α β : Type} (f : α → Except String β) : List α → Except String (List β)
  | [] => .ok []
  | x :: xs =>
    match f x with
    | .error e => .error e
    | .ok y =>
      match mapEx f xs with
      | .error e => .error e
      | .ok ys => .ok (y :: ys)

mutual

/-- Flow-style rendering of a YAML value (used for scalars and for
nested values inside the modelled block encoder). -/
def renderFlow : YVal → String
  | .null => "null"
  | .bool b => if b then "true" else "false"
  | .num n => toString n
  | .str s => s
  | .arr items => "[" ++ renderFlowList items ++ "]"
  | .obj kvs => "\x7b" ++ renderFlowPairs kvs ++ "\x7d"

def renderFlowList : List YVal → String
  | [] => ""
  | [x] => renderFlow x
  | x :: y :: rest => renderFlow x ++ ", " ++ renderFlowList (y :: rest)

def renderFlowPairs : List (String × YVal) → String
  | [] => ""
  | [(k, v)] => k ++ ": " ++ renderFlow v
  | (k, v) :: p :: rest => k ++ ": " ++ renderFlow v ++ ", " ++ renderFlowPairs (p :: rest)

end

/-- Lexicographic order on character lists (executable). -/
def charListLt : List Char → List Char → Bool
  | [], [] => false
  | [], _ :: _ => true
  | _ :: _, [] => false
  | a :: as, b :: bs =>
    if a.toNat < b.toNat then true
    else if b.toNat < a.toNat then false
    else charListLt as bs

/-- Insert a pair into a key-sorted pair list. -/
def insertPair (p : String × YVal) : List (String × YVal) → List (String × YVal)
  | [] => [p]
  | q :: rest =>
    if charListLt q.1.toList p.1.toList then q :: insertPair p rest
    else p :: q :: rest

/-- Sort mapping pairs by key (the canonical codec's fixed key order). -/
def sortPairs : List (String × YVal) → List (String × YVal)
  | [] => []
  | p :: rest => insertPair p (sortPairs rest)

/-- Block rendering of mapping pairs, one `key: value` line each. -/
def blockPairs : List (String × YVal) → String
  | [] => ""
  | (k, v) :: rest => k ++ ": " ++ renderFlow v ++ "\n" ++ blockPairs rest

/-- Block rendering of sequence items, one `- value` line each. -/
def blockItems : List YVal → String
  | [] => ""
  | x :: rest => "- " ++ renderFlow x ++ "\n" ++ blockItems rest

/-- Modelled from the spec: the canonical encoder of the external
codec.  Deterministic; empty mapping encodes to `"\x7b\x7d\n"`; mapping
keys are emitted in sorted order. -/
def kMarshal (v : YVal) : String :=
  match v with
  | .obj [] => "\x7b\x7d\n"
  | .obj kvs => blockPairs (sortPairs kvs)
  | .arr [] => "[]\n"
  | .arr items => blockItems items
  | v => renderFlow v ++ "\n"

/-- The encoder wrapped in the fallible signature `kyaml.Marshal` has in
Go (it never actually fails on a decoded tree). -/
def kMarshalE (v : YVal) : Except String String := .ok (kMarshal v)

/-- Split a character list at every occurrence of `c`. -/
def splitOnCharAux (c : Char) : List Char → List Char → List (List Char)
  | [], acc => [acc.reverse]
  | x :: xs, acc =>
    if x = c then acc.reverse :: splitOnCharAux c xs []
    else splitOnCharAux c xs (x :: acc)

/-- Split a character list at every occurrence of `c` (top entry). -/
def splitOnChar (c : Char) (l : List Char) : List (List Char) :=
  splitOnCharAux c l []

/-- Split a line at its first colon, if any. -/
def splitColon : List Char → Option (List Char × List Char)
  | [] => none
  | ':' :: rest => some ([], rest)
  | c :: rest => (splitColon rest).map (fun p => (c :: p.1, p.2))

/-- Is every character a decimal digit? -/
def allDigits : List Char → Bool
  | [] => true
  | c :: cs => c.isDigit && allDigits cs

/-- Decimal value of a digit list. -/
def digitsVal : List Char → Nat → Nat
  | [], acc => acc
  | c :: cs, acc => digitsVal cs (acc * 10 + (c.toNat - 48))

/-- Parse an optionally-signed decimal integer. -/
def parseIntChars (cs : List Char) : Option Int :=
  match cs with
  | [] => none
  | '-' :: rest =>
    if rest ≠ [] ∧ allDigits rest then some (-(digitsVal rest 0 : Int)) else none
  | _ => if allDigits cs then some (digitsVal cs 0 : Int) else none

/-- Modelled from the spec: scalar decoding of the external codec's
fragment (integers, booleans, null, strings). -/
def parseScalar (cs : List Char) : YVal :=
  match parseIntChars cs with
  | some n => .num n
  | none =>
    let s := String.mk cs
    if s = "null" then .null
    else if s = "true" then .bool true
    else if s = "false" then .bool false
    else .str s

/-- Parse one `key: value` line of a block mapping. -/
def parseLine (cs : List Char) : Except String (String × YVal) :=
  match splitColon cs with
  | some (k, ' ' :: v) =>
    if k = [] then .error ("empty key in line: " ++ String.mk cs)
    else .ok (String.mk k, parseScalar v)
  | _ => .error ("cannot parse line: " ++ String.mk cs)

/-- Modelled from the spec: the decoder of the external canonical codec
on its fragment.  The empty input decodes to the null document (no
error); `\x7b\x7d` decodes to the empty mapping; a flat block mapping
decodes line by line; anything else in the fragment is a scalar; input
outside the fragment is a parse error. -/
def kUnmarshal (s : String) : Except String YVal :=
  let cs := s.toList
  if cs = [] then .ok .null
  else
    let body := if cs.getLast? = some '\n' then cs.dropLast else cs
    if body = "\x7b\x7d".toList then .ok (.obj [])
    else if body = "[]".toList then .ok (.arr [])
    else
      match splitOnChar '\n' body with
      | [one] =>
        if (splitColon one).isSome then
          match parseLine one with
          | .error e => .error e
          | .ok kv => .ok (.obj [kv])
        else .ok (parseScalar one)
      | lines =>
        match mapEx parseLine lines with
        | .error e => .error e
        | .ok kvs => .ok (.obj kvs)

/-! ### The configuration model (`src/k8s.go` lines 42-157)

The structures below translate the Go structs field by field.  The
`O : List (String × YVal)` fields are the `map[string]any` inline open
extension mappings (`yaml:",inline,omitempty"`); they are embedded as
ordered association lists (the key order of a Go map is not modelled;
none of the claims concerns it).  The Go named wrappers `NCluster`,
`NContext` and `NUser` all consist of a `Name string` field plus one
pointer field (`Cluster`, `Context`, `User`), so they are embedded as
one generic structure `Named`, instantiated per payload type; the
payload pointer becomes an `Option`. -/

/-- `AuthProvider` (`src/k8s.go` lines 138-142).  `Config` is
`map[string]string`; `none` models the nil map, `some l` a non-nil
(possibly empty) map. -/
structure AuthProvider where
  Name : String
  Config : Option (List (String × String))
  O : List (String × YVal)
  deriving Repr, Inhabited, BEq

/-- `Cluster` (`src/k8s.go` lines 90-97). -/
structure Cluster where
  Server : String
  TLSServerName : String
  SkipTLSVerify : Bool
  CertAuthority : String
  Proxy : String
  O : List (String × YVal)
  deriving Repr, Inhabited, BEq

/-- `Context` (`src/k8s.go` lines 130-135). -/
structure Context where
  Cluster : String
  User : String
  Namespace : String
  O : List (String × YVal)
  deriving Repr, Inhabited, BEq

/-- `User` (`src/k8s.go` lines 110-121). -/
structure User where
  Cert : String
  Key : String
  Token : String
  As : String
  AsUID : String
  AsGroups : List String
  Name : String
  Pass : String
  Auth : Option AuthProvider
  O : List (String × YVal)
  deriving Repr, Inhabited, BEq

/-- The common shape of `NCluster` / `NContext` / `NUser`: a name plus
an optional payload (the Go pointer field). -/
structure Named (X : Type) where
  Name : String
  val : Option X
  deriving Repr, Inhabited, BEq

/-- `KubeConfig` (`src/k8s.go` lines 53-59). -/
structure KubeConfig where
  Clusters : List (Named Cluster)
  Contexts : List (Named Context)
  Users : List (Named User)
  Current : String
  O : List (String × YVal)
  deriving Repr, Inhabited, BEq

/-! ### Deserialization (`KubeConfig.Load` → `yaml.Unmarshal`)

`KubeConfig.Load` reads a file and calls `gopkg.in/yaml.v2`'s
`Unmarshal` on the receiver.  The file read is abstracted away (the
claims are about the document, not the I/O); `yaml.v2`'s struct
decoding is translated at the tree level: a mapping is processed pair
by pair; a pair whose key matches a struct tag sets that field (later
occurrences of the same key overwrite earlier ones); any other pair is
stored into the inline `O` mapping; fields whose key is absent from the
document are left untouched (`yaml.v2` does not reset them).  Named
wrapper entries have no inline mapping, so unknown keys there are
dropped.  A `null` value for a pointer or map field leaves that field
untouched (nil for a freshly allocated element). -/

/-- Set key `k` to `v` in an association list (overwrite the first
occurrence or append). -/
def setKey (o : List (String × YVal)) (k : String) (v : YVal) :
    List (String × YVal) :=
  match o with
  | [] => [(k, v)]
  | (k', v') :: rest => if k' = k then (k, v) :: rest else (k', v') :: setKey rest k v

/-- The generic field-by-field mapping decoder: `ap a k v` applies a
known field (`none` means the key matches no named field), `g`/`w` read
and write the inline extension mapping. -/
def loadFields {α : Type} (ap : α → String → YVal → Option (Except String α))
    (g : α → List (String × YVal)) (w : α → List (String × YVal) → α) :
    α → List (String × YVal) → Except String α
  | a, [] => .ok a
  | a, (k, v) :: rest =>
    match ap a k v with
    | some (.error e) => .error e
    | some (.ok a') => loadFields ap g w a' rest
    | none => loadFields ap g w (w a (setKey (g a) k v)) rest

/-- Is this the YAML null value? -/
def YVal.isNull : YVal → Bool
  | .null => true
  | _ => false

/-- Decode a string scalar. -/
def expectStr : YVal → Except String String
  | .str s => .ok s
  | _ => .error "expected a string scalar"

/-- Decode a boolean scalar. -/
def expectBool : YVal → Except String Bool
  | .bool b => .ok b
  | _ => .error "expected a boolean scalar"

/-- Decode a sequence of string scalars. -/
def expectStrList : YVal → Except String (List String)
  | .arr items => mapEx expectStr items
  | _ => .error "expected a sequence of strings"

/-- Decode a mapping of string scalars (`map[string]string`). -/
def expectStrMap : YVal → Except String (List (String × String))
  | .obj kvs => mapEx (fun kv => (expectStr kv.2).map (fun s => (kv.1, s))) kvs
  | _ => .error "expected a mapping of strings"

/-- Known fields of `Cluster` (the yaml struct tags). -/
def clusterAp (c : Cluster) (k : String) (v : YVal) :
    Option (Except String Cluster) :=
  if k = "server" then
    some ((expectStr v).map (fun s => { c with Server := s }))
  else if k = "tls-server-name" then
    some ((expectStr v).map (fun s => { c with TLSServerName := s }))
  else if k = "insecure-skip-tls-verify" then
    some ((expectBool v).map (fun b => { c with SkipTLSVerify := b }))
  else if k = "certificate-authority-data" then
    some ((expectStr v).map (fun s => { c with CertAuthority := s }))
  else if k = "proxy-url" then
    some ((expectStr v).map (fun s => { c with Proxy := s }))
  else none

/-- Decode a `Cluster` from a list of mapping pairs. -/
def Cluster.loadObj (kvs : List (String × YVal)) : Except String Cluster :=
  loadFields clusterAp Cluster.O (fun c o => { c with O := o }) default kvs

/-- Decode a `Cluster` from a YAML value. -/
def Cluster.load : YVal → Except String Cluster
  | .obj kvs => Cluster.loadObj kvs
  | _ => .error "cluster: expected a mapping"

/-- Known fields of `Context`. -/
def contextAp (c : Context) (k : String) (v : YVal) :
    Option (Except String Context) :=
  if k = "cluster" then
    some ((expectStr v).map (fun s => { c with Cluster := s }))
  else if k = "user" then
    some ((expectStr v).map (fun s => { c with User := s }))
  else if k = "namespace" then
    some ((expectStr v).map (fun s => { c with Namespace := s }))
  else none

/-- Decode a `Context` from a list of mapping pairs. -/
def Context.loadObj (kvs : List (String × YVal)) : Except String Context :=
  loadFields contextAp Context.O (fun c o => { c with O := o }) default kvs

/-- Decode a `Context` from a YAML value. -/
def Context.load : YVal → Except String Context
  | .obj kvs => Context.loadObj kvs
  | _ => .error "context: expected a mapping"

/-- Known fields of `AuthProvider`. -/
def authAp (p : AuthProvider) (k : String) (v : YVal) :
    Option (Except String AuthProvider) :=
  if k = "name" then
    some ((expectStr v).map (fun s => { p with Name := s }))
  else if k = "config" then
    some (if v.isNull then .ok p
      else (expectStrMap v).map (fun l => { p with Config := some l }))
  else none

/-- Decode an `AuthProvider` from a list of mapping pairs. -/
def AuthProvider.loadObj (kvs : List (String × YVal)) :
    Except String AuthProvider :=
  loadFields authAp AuthProvider.O (fun p o => { p with O := o }) default kvs

/-- Decode an `AuthProvider` from a YAML value. -/
def AuthProvider.load : YVal → Except String AuthProvider
  | .obj kvs => AuthProvider.loadObj kvs
  | _ => .error "auth-provider: expected a mapping"

/-- Known fields of `User`. -/
def userAp (u : User) (k : String) (v : YVal) :
    Option (Except String User) :=
  if k = "client-certificate-data" then
    some ((expectStr v).map (fun s => { u with Cert := s }))
  else if k = "client-key-data" then
    some ((expectStr v).map (fun s => { u with Key := s }))
  else if k = "token" then
    some ((expectStr v).map (fun s => { u with Token := s }))
  else if k = "act-as" then
    some ((expectStr v).map (fun s => { u with As := s }))
  else if k = "act-as-uid" then
    some ((expectStr v).map (fun s => { u with AsUID := s }))
  else if k = "act-as-groups" then
    some ((expectStrList v).map (fun l => { u with AsGroups := l }))
  else if k = "username" then
    some ((expectStr v).map (fun s => { u with Name := s }))
  else if k = "password" then
    some ((expectStr v).map (fun s => { u with Pass := s }))
  else if k = "auth-provider" then
    some (if v.isNull then .ok u
      else (AuthProvider.load v).map (fun p => { u with Auth := some p }))
  else none

/-- Decode a `User` from a list of mapping pairs. -/
def User.loadObj (kvs : List (String × YVal)) : Except String User :=
  loadFields userAp User.O (fun u o => { u with O := o }) default kvs

/-- Decode a `User` from a YAML value. -/
def User.load : YVal → Except String User
  | .obj kvs => User.loadObj kvs
  | _ => .error "user: expected a mapping"

/-- Decode the fields of a named wrapper entry (`name` plus the payload
key); unknown keys are dropped (the wrappers have no inline mapping). -/
def namedFields {X : Type} (payloadKey : String)
    (loadX : YVal → Except String X) :
    Named X → List (String × YVal) → Except String (Named X)
  | n, [] => .ok n
  | n, (k, v) :: rest =>
    if k = "name" then
      match expectStr v with
      | .error e => .error e
      | .ok s => namedFields payloadKey loadX { n with Name := s } rest
    else if k = payloadKey then
      if v.isNull then namedFields payloadKey loadX n rest
      else
        match loadX v with
        | .error e => .error e
        | .ok x => namedFields payloadKey loadX { n with val := some x } rest
    else namedFields payloadKey loadX n rest

/-- Decode a named wrapper entry from a YAML value. -/
def Named.load {X : Type} (payloadKey : String)
    (loadX : YVal → Except String X) : YVal → Except String (Named X)
  | .obj kvs => namedFields payloadKey loadX ⟨"", none⟩ kvs
  | _ => .error "named entry: expected a mapping"

/-- Known fields of `KubeConfig` (the top-level schema keys). -/
def kubeAp (c : KubeConfig) (k : String) (v : YVal) :
    Option (Except String KubeConfig) :=
  if k = "clusters" then
    some (match v with
      | .arr items =>
        (mapEx (Named.load "cluster" Cluster.load) items).map
          (fun l => { c with Clusters := l })
      | _ => .error "clusters: expected a sequence")
  else if k = "contexts" then
    some (match v with
      | .arr items =>
        (mapEx (Named.load "context" Context.load) items).map
          (fun l => { c with Contexts := l })
      | _ => .error "contexts: expected a sequence")
  else if k = "users" then
    some (match v with
      | .arr items =>
        (mapEx (Named.load "user" User.load) items).map
          (fun l => { c with Users := l })
      | _ => .error "users: expected a sequence")
  else if k = "current-context" then
    some ((expectStr v).map (fun s => { c with Current := s }))
  else none

/-- `KubeConfig.Load` at the document level: decode a parsed YAML tree
into the receiver `c` (`yaml.Unmarshal(buf, c)`, `src/k8s.go` line 67).
A null document leaves the receiver untouched. -/
def KubeConfig.loadDoc (c : KubeConfig) : YVal → Except String KubeConfig
  | .null => .ok c
  | .obj kvs => loadFields kubeAp KubeConfig.O (fun c o => { c with O := o }) c kvs
  | _ => .error "kubeconfig: expected a mapping"

/-! ### Serialization (`KubeConfig.String` → `yaml.Marshal`)

`yaml.v2` marshalling at the tree level: struct fields are emitted in
declaration order under their tag names, `omitempty` fields are omitted
at their zero value, and the inline `O` mapping is merged at the same
level as the named fields. -/

/-- An `omitempty` string field: omitted when empty. -/
def strEntry (key s : String) : List (String × YVal) :=
  if s = "" then [] else [(key, .str s)]

/-- Serialize a `Cluster` (`server` is not `omitempty`). -/
def Cluster.toYaml (c : Cluster) : YVal :=
  .obj ([("server", .str c.Server)]
    ++ strEntry "tls-server-name" c.TLSServerName
    ++ (if c.SkipTLSVerify then [("insecure-skip-tls-verify", .bool true)] else [])
    ++ strEntry "certificate-authority-data" c.CertAuthority
    ++ strEntry "proxy-url" c.Proxy
    ++ c.O)

/-- Serialize a `Context` (`cluster` and `user` are not `omitempty`). -/
def Context.toYaml (c : Context) : YVal :=
  .obj ([("cluster", .str c.Cluster), ("user", .str c.User)]
    ++ strEntry "namespace" c.Namespace
    ++ c.O)

/-- Serialize an `AuthProvider` (`name` is not `omitempty`; a nil or
empty `config` map is omitted). -/
def AuthProvider.toYaml (p : AuthProvider) : YVal :=
  .obj ([("name", .str p.Name)]
    ++ (match p.Config with
      | none => []
      | some [] => []
      | some l => [("config", .obj (l.map (fun kv => (kv.1, .str kv.2))))])
    ++ p.O)

/-- Serialize a `User`. -/
def User.toYaml (u : User) : YVal :=
  .obj (strEntry "client-certificate-data" u.Cert
    ++ strEntry "client-key-data" u.Key
    ++ strEntry "token" u.Token
    ++ strEntry "act-as" u.As
    ++ strEntry "act-as-uid" u.AsUID
    ++ (match u.AsGroups with
      | [] => []
      | gs => [("act-as-groups", .arr (gs.map .str))])
    ++ strEntry "username" u.Name
    ++ strEntry "password" u.Pass
    ++ (match u.Auth with
      | none => []
      | some p => [("auth-provider", p.toYaml)])
    ++ u.O)

/-- Serialize a named wrapper entry (its two fields are untagged, so
both are always emitted; a nil payload is emitted as `null`). -/
def Named.toYaml {X : Type} (payloadKey : String) (toX : X → YVal)
    (n : Named X) : YVal :=
  .obj [("name", .str n.Name),
    (payloadKey, match n.val with | none => .null | some x => toX x)]

/-- Serialize a `KubeConfig` to its YAML tree (all four named fields
are `omitempty`; the inline `O` mapping is merged at the top level). -/
def KubeConfig.toYaml (c : KubeConfig) : YVal :=
  .obj ((match c.Clusters with
      | [] => []
      | l => [("clusters", .arr (l.map (Named.toYaml "cluster" Cluster.toYaml)))])
    ++ (match c.Contexts with
      | [] => []
      | l => [("contexts", .arr (l.map (Named.toYaml "context" Context.toYaml)))])
    ++ (match c.Users with
      | [] => []
      | l => [("users", .arr (l.map (Named.toYaml "user" User.toYaml)))])
    ++ strEntry "current-context" c.Current
    ++ c.O)

/-- `KubeConfig.String` (`src/k8s.go` lines 70-73), parameterized over
the marshal step: `buf, _ := yaml.Marshal(c)` discards any marshal
error, in which case `buf` is nil and the returned string is empty. -/
def kubeConfigStringWith (marshal : KubeConfig → Except String String)
    (c : KubeConfig) : String :=
  match marshal c with
  | .ok buf => buf
  | .error _ => ""

/-- The modelled `yaml.Marshal` for `KubeConfig`: total (marshalling
the in-memory graph cannot fail), rendering the serialized tree. -/
def kubeMarshal (c : KubeConfig) : Except String String :=
  .ok (kMarshal (KubeConfig.toYaml c))

/-- `KubeConfig.String` with the modelled codec. -/
def kubeConfigString (c : KubeConfig) : String :=
  kubeConfigStringWith kubeMarshal c

/-! ### `AuthProvider` redacted display (`src/k8s.go` lines 144-157) -/

/-- One character of Go's `%q` escaping (the fragment relevant to the
schema: quote, backslash and common control characters). -/
def goEscapeChar (c : Char) : String :=
  if c = '"' then "\\\""
  else if c = '\\' then "\\\\"
  else if c = '\n' then "\\n"
  else if c = '\t' then "\\t"
  else if c = '\r' then "\\r"
  else String.singleton c

/-- Go's `%q` rendering of a string. -/
def goQuote (s : String) : String :=
  "\"" ++ String.join (s.toList.map goEscapeChar) ++ "\""

/-- `AuthProvider.String` (`src/k8s.go` lines 150-157): `Config` is
rendered as a fixed placeholder when non-nil and as `<nil>` when nil;
the name is rendered with `%q`. -/
def authProviderString (p : AuthProvider) : String :=
  let cfg := match p.Config with
    | none => "<nil>"
    | some _ => "--- REDACTED ---"
  "api.AuthProvider\x7bName: " ++ goQuote p.Name ++
    ", Config: map[string]string\x7b" ++ cfg ++ "\x7d\x7d"

/-- `AuthProvider.GoString` (`src/k8s.go` line 146): delegates to the
redacted `String`. -/
def authProviderGoString (p : AuthProvider) : String :=
  authProviderString p

/-- The pairs of a YAML mapping value (empty for non-mappings). -/
def YVal.objFields : YVal → List (String × YVal)
  | .obj l => l
  | _ => []

/-- The `name` field of a serialized named entry ("" when absent). -/
def nameOfItem (v : YVal) : String :=
  match v.objFields.lookup "name" with
  | some (.str s) => s
  | _ => ""

/-- The names of the entries listed under `key` in a serialized
configuration document. -/
def serializedNames (key : String) (v : YVal) : List String :=
  match v.objFields.lookup key with
  | some (.arr l) => l.map nameOfItem
  | _ => []

/-- The top-level schema keys of `KubeConfig`. -/
def kubeKeys : List String :=
  ["clusters", "contexts", "users", "current-context"]

/-- The schema keys of `Cluster`. -/
def clusterKeys : List String :=
  ["server", "tls-server-name", "insecure-skip-tls-verify",
    "certificate-authority-data", "proxy-url"]

/-- The schema keys of `Context`. -/
def contextKeys : List String :=
  ["cluster", "user", "namespace"]

/-- The schema keys of `User`. -/
def userKeys : List String :=
  ["client-certificate-data", "client-key-data", "token", "act-as",
    "act-as-uid", "act-as-groups", "username", "password", "auth-provider"]

/-- The schema keys of `AuthProvider`. -/
def authKeys : List String :=
  ["name", "config"]

/-- Does `sub` occur as a contiguous segment of the second list? -/
def segIn (sub : List Char) : List Char → Bool
  | [] => sub.isEmpty
  | c :: t => sub.isPrefixOf (c :: t) || segIn sub t

/-- Does `sub` occur as a substring of `s`? -/
def strContains (s sub : String) : Bool :=
  segIn sub.toList s.toList

/-! ### NormYAML claims -/

/-- C1: for every input whose canonical re-encoding is exactly the
empty-mapping form (`\x7b\x7d` plus newline), `NormYAML` succeeds and
returns the zero-length byte sequence instead of that encoding. -/
theorem normYAML_empty_collapse (u : String → Except String YVal)
    (m : YVal → Except String String) (y : String) (v : YVal)
    (h1 : u y = .ok v) (h2 : m v = .ok "\x7b\x7d\n") :
    NormYAML u m y = .ok "" := by
  simp [NormYAML, h1, h2]

/-- Witness for C1: the concrete inputs `"\x7b\x7d"` and `"\x7b\x7d\n"`
parse to the empty mapping, re-encode to `"\x7b\x7d\n"`, and normalize
to the zero-length result. -/
theorem normYAML_empty_collapse_witness :
    kUnmarshal "\x7b\x7d" = .ok (.obj []) ∧
      kMarshalE (.obj []) = .ok "\x7b\x7d\n" ∧
      NormYAML kUnmarshal kMarshalE "\x7b\x7d" = .ok "" ∧
      NormYAML kUnmarshal kMarshalE "\x7b\x7d\n" = .ok "" :=
  ⟨rfl, rfl,
    normYAML_empty_collapse kUnmarshal kMarshalE "\x7b\x7d" (.obj []) rfl rfl,
    normYAML_empty_collapse kUnmarshal kMarshalE "\x7b\x7d\n" (.obj []) rfl rfl⟩

/-- C2 counterexample: idempotence fails at the valid YAML input
`"\x7b\x7d"`.  Its normalization is the zero-length sequence, but
normalizing that zero-length sequence yields `"null\n"` (the empty
input decodes to the null document), not the zero-length sequence. -/
theorem normYAML_not_idempotent :
    NormYAML kUnmarshal kMarshalE "\x7b\x7d" = .ok "" ∧
      NormYAML kUnmarshal kMarshalE "" = .ok "null\n" ∧
      (("null\n" : String) == "") = false :=
  ⟨rfl, rfl, by decide⟩

/-- C2 amended: `NormYAML` is idempotent on every valid input whose
normalization is nonempty (equivalently, whose canonical re-encoding is
not the empty-mapping form), provided the codec re-decodes its own
canonical output to a tree that re-encodes identically. -/
theorem normYAML_idem (u : String → Except String YVal)
    (m : YVal → Except String String) (x r : String) (v' : YVal)
    (h1 : NormYAML u m x = .ok r) (h2 : r ≠ "")
    (h3 : u r = .ok v') (h4 : m v' = .ok r) :
    NormYAML u m r = .ok r := by
  have hne : r ≠ "\x7b\x7d\n" := by
    intro hr
    subst hr
    unfold NormYAML at h1
    cases hu : u x with
    | error e => simp [hu] at h1
    | ok v =>
      simp only [hu] at h1
      cases hm : m v with
      | error e => simp [hm] at h1
      | ok enc =>
        simp only [hm] at h1
        by_cases he : enc = "\x7b\x7d\n"
        · rw [if_pos he] at h1
          have : "" = "\x7b\x7d\n" := Except.ok.inj h1
          exact absurd this.symm (by decide)
        · rw [if_neg he] at h1
          exact he (Except.ok.inj h1)
  unfold NormYAML
  simp only [h3, h4]
  rw [if_neg hne]

/-- Witness for C2 amended: at the concrete input `"a: 1\n"` the
normalization is nonempty and renormalizing it is the identity. -/
theorem normYAML_idem_witness :
    NormYAML kUnmarshal kMarshalE "a: 1\n" = .ok "a: 1\n" :=
  normYAML_idem kUnmarshal kMarshalE "a: 1\n" "a: 1\n"
    (.obj [("a", .num 1)]) rfl (by decide) rfl rfl

/-- C3: `NormYAML` fails exactly on inputs the decoder rejects: a parse
error is surfaced directly to the caller, and every input the decoder
accepts produces a successful byte result (the encoder, modelled total,
never fails on a decoded tree). -/
theorem normYAML_err_iff (u : String → Except String YVal)
    (m : YVal → Except String String) (y : String)
    (hm : ∀ v, ∃ s, m v = .ok s) :
    (∀ e, u y = .error e → NormYAML u m y = .error e) ∧
    (∀ v, u y = .ok v → ∃ r, NormYAML u m y = .ok r) := by
  constructor
  · intro e he
    simp [NormYAML, he]
  · intro v hv
    obtain ⟨s, hs⟩ := hm v
    by_cases h : s = "\x7b\x7d\n"
    · exact ⟨"", by simp [NormYAML, hv, hs, h]⟩
    · exact ⟨s, by simp [NormYAML, hv, hs, h]⟩

/-- Witness for C3: the malformed input `":"` surfaces its parse error
unchanged to the caller. -/
theorem normYAML_err_iff_witness :
    NormYAML kUnmarshal kMarshalE ":" = .error "cannot parse line: :" :=
  (normYAML_err_iff kUnmarshal kMarshalE ":"
    (fun v => ⟨kMarshal v, rfl⟩)).1 "cannot parse line: :" rfl

/-- C7: `NormYAML` is a pure, deterministic function of its input: the
embedding is a total Lean function, so two runs on equal inputs (with
the same codec) produce equal results and no state other than the input
is consulted. -/
theorem normYAML_deterministic (u : String → Except String YVal)
    (m : YVal → Except String String) (y₁ y₂ : String) (h : y₁ = y₂) :
    NormYAML u m y₁ = NormYAML u m y₂ := by
  rw [h]

/-- Witness for C7 at a concrete input. -/
theorem normYAML_deterministic_witness :
    NormYAML kUnmarshal kMarshalE "a: 1\n" =
      NormYAML kUnmarshal kMarshalE "a: 1\n" :=
  normYAML_deterministic kUnmarshal kMarshalE "a: 1\n" "a: 1\n" rfl

/-! ### Helper lemmas -/

theorem except_map_ok {α β : Type} (e : Except String α) (fn : α → β) (b : β)
    (h : e.map fn = .ok b) : ∃ a, e = .ok a ∧ b = fn a := by
  cases e with
  | error err => simp [Except.map] at h
  | ok a => exact ⟨a, rfl, by simpa [Except.map] using h.symm⟩

theorem lookup_mem {β : Type} (l : List (String × β)) (k : String) (v : β)
    (h : l.lookup k = some v) : (k, v) ∈ l := by
  induction l with
  | nil => simp [List.lookup] at h
  | cons p rest ih =>
    obtain ⟨k', v'⟩ := p
    rw [List.lookup] at h
    cases hbe : (k == k') with
    | true =>
      simp only [hbe] at h
      have hk : k = k' := eq_of_beq hbe
      subst hk
      simp [Option.some.inj h]
    | false =>
      simp only [hbe] at h
      exact List.mem_cons_of_mem _ (ih h)

theorem lookup_eq_none {β : Type} (l : List (String × β)) (k : String)
    (h : k ∉ l.map Prod.fst) : l.lookup k = none := by
  induction l with
  | nil => rfl
  | cons p rest ih =>
    obtain ⟨k', v'⟩ := p
    simp only [List.map_cons, List.mem_cons] at h
    push_neg at h
    rw [List.lookup]
    simp only [beq_eq_false_iff_ne.mpr h.1]
    exact ih h.2

theorem setKey_lookup_self (o : List (String × YVal)) (k : String) (v : YVal) :
    (setKey o k v).lookup k = some v := by
  induction o with
  | nil => simp [setKey, List.lookup]
  | cons p rest ih =>
    obtain ⟨k', v'⟩ := p
    by_cases hk : k' = k
    · simp [setKey, hk, List.lookup]
    · rw [setKey, if_neg hk, List.lookup]
      simp only [beq_eq_false_iff_ne.mpr (fun h => hk h.symm)]
      exact ih

theorem setKey_lookup_other (o : List (String × YVal)) (k k' : String)
    (v : YVal) (hne : k' ≠ k) :
    (setKey o k v).lookup k' = o.lookup k' := by
  induction o with
  | nil => simp [setKey, List.lookup, beq_eq_false_iff_ne.mpr hne]
  | cons p rest ih =>
    obtain ⟨k₀, v₀⟩ := p
    by_cases hk : k₀ = k
    · subst hk
      rw [setKey, if_pos rfl, List.lookup, List.lookup]
      simp only [beq_eq_false_iff_ne.mpr hne]
    · rw [setKey, if_neg hk, List.lookup, List.lookup]
      cases hbe : (k' == k₀) with
      | true => simp only []
      | false =>
        simp only []
        exact ih

/-- If every processed pair preserves a projection `f`, `loadFields`
preserves it. -/
theorem loadFields_proj {α : Type} {β : Type}
    (ap : α → String → YVal → Option (Except String α))
    (g : α → List (String × YVal)) (w : α → List (String × YVal) → α)
    (f : α → β) (kvs : List (String × YVal)) (a a' : α)
    (h : loadFields ap g w a kvs = .ok a')
    (hok : ∀ b k v b', (k, v) ∈ kvs → ap b k v = some (.ok b') → f b' = f b)
    (hnone : ∀ b k v, (k, v) ∈ kvs → ap b k v = none →
      f (w b (setKey (g b) k v)) = f b) :
    f a' = f a := by
  induction kvs generalizing a with
  | nil =>
    rw [loadFields] at h
    rw [Except.ok.inj h]
  | cons kv rest ih =>
    obtain ⟨k, v⟩ := kv
    rw [loadFields] at h
    cases hap : ap a k v with
    | none =>
      simp only [hap] at h
      have step := hnone a k v (List.mem_cons_self _ _) hap
      rw [ih _ h
        (fun b k' v' b' hm => hok b k' v' b' (List.mem_cons_of_mem _ hm))
        (fun b k' v' hm => hnone b k' v' (List.mem_cons_of_mem _ hm)), step]
    | some r =>
      cases r with
      | error e =>
        simp only [hap] at h
        exact Except.noConfusion h
      | ok a₁ =>
        simp only [hap] at h
        have step := hok a k v a₁ (List.mem_cons_self _ _) hap
        rw [ih _ h
          (fun b k' v' b' hm => hok b k' v' b' (List.mem_cons_of_mem _ hm))
          (fun b k' v' hm => hnone b k' v' (List.mem_cons_of_mem _ hm)), step]

/-- An unknown key in a duplicate-free document ends up in the inline
extension mapping with its value. -/
theorem loadFields_capture {α : Type}
    (ap : α → String → YVal → Option (Except String α))
    (g : α → List (String × YVal)) (w : α → List (String × YVal) → α)
    (hgw : ∀ b o, g (w b o) = o)
    (hgok : ∀ b k v b', ap b k v = some (.ok b') → g b' = g b)
    (kvs : List (String × YVal)) (a a' : α) (k : String) (v : YVal)
    (h : loadFields ap g w a kvs = .ok a')
    (hnd : (kvs.map Prod.fst).Nodup)
    (hmem : (k, v) ∈ kvs)
    (hunk : ∀ b v', ap b k v' = none) :
    (g a').lookup k = some v := by
  induction kvs generalizing a with
  | nil => exact absurd hmem (List.not_mem_nil _)
  | cons kv rest ih =>
    obtain ⟨k₀, v₀⟩ := kv
    rw [loadFields] at h
    simp only [List.map_cons, List.nodup_cons] at hnd
    rcases List.mem_cons.mp hmem with heq | hrest
    · injection heq with hk hv
      subst hk
      subst hv
      simp only [hunk a v] at h
      have hpres : (g a').lookup k = (g (w a (setKey (g a) k v))).lookup k := by
        refine loadFields_proj ap g w (fun b => (g b).lookup k) rest _ _ h ?_ ?_
        · intro b k' v' b' hm hap
          show (g b').lookup k = (g b).lookup k
          rw [hgok b k' v' b' hap]
        · intro b k' v' hm hap
          have hk' : k' ≠ k := by
            intro hkk
            exact hnd.1 (hkk ▸ List.mem_map_of_mem Prod.fst hm)
          show (g (w b (setKey (g b) k' v'))).lookup k = (g b).lookup k
          rw [hgw, setKey_lookup_other _ _ _ _ (fun hkk => hk' hkk.symm)]
      rw [hpres, hgw, setKey_lookup_self]
    · have hk₀ : k ≠ k₀ := by
        intro hkk
        exact hnd.1 (hkk ▸ List.mem_map_of_mem Prod.fst hrest)
      cases hap : ap a k₀ v₀ with
      | none =>
        simp only [hap] at h
        exact ih _ h hnd.2 hrest
      | some r =>
        cases r with
        | error e =>
          simp only [hap] at h
          exact Except.noConfusion h
        | ok a₁ =>
          simp only [hap] at h
          exact ih _ h hnd.2 hrest

/-- A known field whose setter always succeeds on the given value takes
that value after a duplicate-free load (later pairs cannot change it). -/
theorem loadFields_target {α β : Type}
    (ap : α → String → YVal → Option (Except String α))
    (g : α → List (String × YVal)) (w : α → List (String × YVal) → α)
    (f : α → β) (k : String) (v : YVal) (t : β)
    (kvs : List (String × YVal)) (a a' : α)
    (h : loadFields ap g w a kvs = .ok a')
    (hnd : (kvs.map Prod.fst).Nodup)
    (hmem : (k, v) ∈ kvs)
    (hset : ∀ b, ∃ b', ap b k v = some (.ok b') ∧ f b' = t)
    (hothers : ∀ b k' v' b', k' ≠ k → ap b k' v' = some (.ok b') → f b' = f b)
    (hw : ∀ b o, f (w b o) = f b) :
    f a' = t := by
  induction kvs generalizing a with
  | nil => exact absurd hmem (List.not_mem_nil _)
  | cons kv rest ih =>
    obtain ⟨k₀, v₀⟩ := kv
    rw [loadFields] at h
    simp only [List.map_cons, List.nodup_cons] at hnd
    rcases List.mem_cons.mp hmem with heq | hrest
    · injection heq with hk hv
      subst hk
      subst hv
      obtain ⟨b', hap, hfb⟩ := hset a
      rw [hap] at h
      have hpres : f a' = f b' := by
        refine loadFields_proj ap g w f rest _ _ h ?_ ?_
        · intro b k' v' b₂ hm hap'
          have hk' : k' ≠ k := by
            intro hkk
            exact hnd.1 (hkk ▸ List.mem_map_of_mem Prod.fst hm)
          exact hothers b k' v' b₂ hk' hap'
        · intro b k' v' hm hap'
          exact hw b _
      rw [hpres, hfb]
    · have hk₀ : k₀ ≠ k := by
        intro hkk
        exact hnd.1 (hkk ▸ List.mem_map_of_mem Prod.fst hrest)
      cases hap : ap a k₀ v₀ with
      | none =>
        simp only [hap] at h
        exact ih _ h hnd.2 hrest
      | some r =>
        cases r with
        | error e =>
          simp only [hap] at h
          exact Except.noConfusion h
        | ok a₁ =>
          simp only [hap] at h
          exact ih _ h hnd.2 hrest

/-- If a load succeeds and a pair is in the document, then the step
for that pair succeeded at some intermediate state (provided it is a
known-field step). -/
theorem loadFields_ap_ok {α : Type}
    (ap : α → String → YVal → Option (Except String α))
    (g : α → List (String × YVal)) (w : α → List (String × YVal) → α)
    (kvs : List (String × YVal)) (a a' : α) (k : String) (v : YVal)
    (h : loadFields ap g w a kvs = .ok a')
    (hmem : (k, v) ∈ kvs)
    (hsome : ∀ b, ∃ r, ap b k v = some r) :
    ∃ b b', ap b k v = some (.ok b') := by
  induction kvs generalizing a with
  | nil => exact absurd hmem (List.not_mem_nil _)
  | cons kv rest ih =>
    obtain ⟨k₀, v₀⟩ := kv
    rw [loadFields] at h
    rcases List.mem_cons.mp hmem with heq | hrest
    · injection heq with hk hv
      subst hk
      subst hv
      obtain ⟨r, hr⟩ := hsome a
      cases r with
      | error e =>
        simp only [hr] at h
        exact Except.noConfusion h
      | ok b' => exact ⟨a, b', hr⟩
    · cases hap : ap a k₀ v₀ with
      | none =>
        simp only [hap] at h
        exact ih _ h hrest
      | some r =>
        cases r with
        | error e =>
          simp only [hap] at h
          exact Except.noConfusion h
        | ok a₁ =>
          simp only [hap] at h
          exact ih _ h hrest

/-! ### Per-entity facts about the known-field steps -/

theorem kubeAp_unknown (k : String) (hk : k ∉ kubeKeys) (b : KubeConfig)
    (v : YVal) : kubeAp b k v = none := by
  simp only [kubeKeys, List.mem_cons, List.not_mem_nil, or_false] at hk
  push_neg at hk
  obtain ⟨h1, h2, h3, h4⟩ := hk
  simp [kubeAp, h1, h2, h3, h4]

theorem clusterAp_unknown (k : String) (hk : k ∉ clusterKeys) (b : Cluster)
    (v : YVal) : clusterAp b k v = none := by
  simp only [clusterKeys, List.mem_cons, List.not_mem_nil, or_false] at hk
  push_neg at hk
  obtain ⟨h1, h2, h3, h4, h5⟩ := hk
  simp [clusterAp, h1, h2, h3, h4, h5]

theorem contextAp_unknown (k : String) (hk : k ∉ contextKeys) (b : Context)
    (v : YVal) : contextAp b k v = none := by
  simp only [contextKeys, List.mem_cons, List.not_mem_nil, or_false] at hk
  push_neg at hk
  obtain ⟨h1, h2, h3⟩ := hk
  simp [contextAp, h1, h2, h3]

theorem userAp_unknown (k : String) (hk : k ∉ userKeys) (b : User)
    (v : YVal) : userAp b k v = none := by
  simp only [userKeys, List.mem_cons, List.not_mem_nil, or_false] at hk
  push_neg at hk
  obtain ⟨h1, h2, h3, h4, h5, h6, h7, h8, h9⟩ := hk
  simp [userAp, h1, h2, h3, h4, h5, h6, h7, h8, h9]

theorem authAp_unknown (k : String) (hk : k ∉ authKeys) (b : AuthProvider)
    (v : YVal) : authAp b k v = none := by
  simp only [authKeys, List.mem_cons, List.not_mem_nil, or_false] at hk
  push_neg at hk
  obtain ⟨h1, h2⟩ := hk
  simp [authAp, h1, h2]

theorem kubeAp_ok_fields (b : KubeConfig) (k : String) (v : YVal)
    (b' : KubeConfig) (h : kubeAp b k v = some (.ok b')) :
    (k ≠ "clusters" → b'.Clusters = b.Clusters) ∧
    (k ≠ "contexts" → b'.Contexts = b.Contexts) ∧
    (k ≠ "users" → b'.Users = b.Users) ∧
    (k ≠ "current-context" → b'.Current = b.Current) ∧
    b'.O = b.O := by
  unfold kubeAp at h
  repeat' split at h
  all_goals
    first
    | exact Option.noConfusion h
    | exact Except.noConfusion (Option.some.inj h)
    | (obtain ⟨x, hx, hb⟩ := except_map_ok _ _ _ (Option.some.inj h)
       subst hb
       refine ⟨?_, ?_, ?_, ?_, rfl⟩ <;>
         first
         | (intro hne; rfl)
         | (intro hne; exact absurd ‹_› hne))

/-- Inversion of a successful `clusters` step: the value is a
sequence, its entries decode, and the field is set to them. -/
theorem kubeAp_clusters_ok (b b' : KubeConfig) (v : YVal)
    (h : kubeAp b "clusters" v = some (.ok b')) :
    ∃ items l, v = .arr items ∧
      mapEx (Named.load "cluster" Cluster.load) items = .ok l ∧
      b'.Clusters = l := by
  cases v with
  | arr items =>
    obtain ⟨l, hmap, hb⟩ := except_map_ok _ _ _ (Option.some.inj h)
    exact ⟨items, l, rfl, hmap, by rw [hb]⟩
  | null => exact Except.noConfusion (Option.some.inj h)
  | bool x => exact Except.noConfusion (Option.some.inj h)
  | num x => exact Except.noConfusion (Option.some.inj h)
  | str x => exact Except.noConfusion (Option.some.inj h)
  | obj x => exact Except.noConfusion (Option.some.inj h)

/-- Inversion of a successful `contexts` step. -/
theorem kubeAp_contexts_ok (b b' : KubeConfig) (v : YVal)
    (h : kubeAp b "contexts" v = some (.ok b')) :
    ∃ items l, v = .arr items ∧
      mapEx (Named.load "context" Context.load) items = .ok l ∧
      b'.Contexts = l := by
  cases v with
  | arr items =>
    obtain ⟨l, hmap, hb⟩ := except_map_ok _ _ _ (Option.some.inj h)
    exact ⟨items, l, rfl, hmap, by rw [hb]⟩
  | null => exact Except.noConfusion (Option.some.inj h)
  | bool x => exact Except.noConfusion (Option.some.inj h)
  | num x => exact Except.noConfusion (Option.some.inj h)
  | str x => exact Except.noConfusion (Option.some.inj h)
  | obj x => exact Except.noConfusion (Option.some.inj h)

/-- Inversion of a successful `users` step. -/
theorem kubeAp_users_ok (b b' : KubeConfig) (v : YVal)
    (h : kubeAp b "users" v = some (.ok b')) :
    ∃ items l, v = .arr items ∧
      mapEx (Named.load "user" User.load) items = .ok l ∧
      b'.Users = l := by
  cases v with
  | arr items =>
    obtain ⟨l, hmap, hb⟩ := except_map_ok _ _ _ (Option.some.inj h)
    exact ⟨items, l, rfl, hmap, by rw [hb]⟩
  | null => exact Except.noConfusion (Option.some.inj h)
  | bool x => exact Except.noConfusion (Option.some.inj h)
  | num x => exact Except.noConfusion (Option.some.inj h)
  | str x => exact Except.noConfusion (Option.some.inj h)
  | obj x => exact Except.noConfusion (Option.some.inj h)

theorem clusterAp_ok_O (b : Cluster) (k : String) (v : YVal) (b' : Cluster)
    (h : clusterAp b k v = some (.ok b')) : b'.O = b.O := by
  unfold clusterAp at h
  repeat' split at h
  all_goals
    first
    | exact Option.noConfusion h
    | (obtain ⟨x, hx, hb⟩ := except_map_ok _ _ _ (Option.some.inj h)
       subst hb
       rfl)

theorem contextAp_ok_O (b : Context) (k : String) (v : YVal) (b' : Context)
    (h : contextAp b k v = some (.ok b')) : b'.O = b.O := by
  unfold contextAp at h
  repeat' split at h
  all_goals
    first
    | exact Option.noConfusion h
    | (obtain ⟨x, hx, hb⟩ := except_map_ok _ _ _ (Option.some.inj h)
       subst hb
       rfl)

theorem authAp_ok_O (b : AuthProvider) (k : String) (v : YVal)
    (b' : AuthProvider) (h : authAp b k v = some (.ok b')) : b'.O = b.O := by
  unfold authAp at h
  repeat' split at h
  all_goals
    first
    | exact Option.noConfusion h
    | exact Except.noConfusion (Option.some.inj h)
    | (obtain ⟨x, hx, hb⟩ := except_map_ok _ _ _ (Option.some.inj h)
       subst hb
       rfl)
    | (rw [Except.ok.inj (Option.some.inj h).symm])

theorem userAp_ok_O (b : User) (k : String) (v : YVal) (b' : User)
    (h : userAp b k v = some (.ok b')) : b'.O = b.O := by
  unfold userAp at h
  repeat' split at h
  all_goals
    first
    | exact Option.noConfusion h
    | exact Except.noConfusion (Option.some.inj h)
    | (obtain ⟨x, hx, hb⟩ := except_map_ok _ _ _ (Option.some.inj h)
       subst hb
       rfl)
    | (rw [Except.ok.inj (Option.some.inj h).symm])

/-! ### Membership in the serialized trees -/

theorem mem_kubeToYaml_of_mem_O (c : KubeConfig) (k : String) (v : YVal)
    (h : (k, v) ∈ c.O) : (k, v) ∈ (KubeConfig.toYaml c).objFields := by
  simp only [KubeConfig.toYaml, YVal.objFields]
  exact List.mem_append_right _ h

theorem mem_clusterToYaml_of_mem_O (c : Cluster) (k : String) (v : YVal)
    (h : (k, v) ∈ c.O) : (k, v) ∈ (Cluster.toYaml c).objFields := by
  simp only [Cluster.toYaml, YVal.objFields]
  exact List.mem_append_right _ h

theorem mem_contextToYaml_of_mem_O (c : Context) (k : String) (v : YVal)
    (h : (k, v) ∈ c.O) : (k, v) ∈ (Context.toYaml c).objFields := by
  simp only [Context.toYaml, YVal.objFields]
  exact List.mem_append_right _ h

theorem mem_userToYaml_of_mem_O (u : User) (k : String) (v : YVal)
    (h : (k, v) ∈ u.O) : (k, v) ∈ (User.toYaml u).objFields := by
  simp only [User.toYaml, YVal.objFields]
  exact List.mem_append_right _ h

theorem mem_authToYaml_of_mem_O (p : AuthProvider) (k : String) (v : YVal)
    (h : (k, v) ∈ p.O) : (k, v) ∈ (AuthProvider.toYaml p).objFields := by
  simp only [AuthProvider.toYaml, YVal.objFields]
  exact List.mem_append_right _ h

/-- C4: any key of a duplicate-free document that is not mapped to a
named schema field — at the top level, or inside a cluster, context,
user or auth-provider entry — survives a load-then-serialize round trip
unchanged, merged at the same serialization level as the named fields
(via the inline open extension mapping `O`). -/
theorem openExtension_roundtrip :
    (∀ (kvs : List (String × YVal)) (c : KubeConfig) (k : String) (v : YVal),
        KubeConfig.loadDoc default (.obj kvs) = .ok c →
        (kvs.map Prod.fst).Nodup → k ∉ kubeKeys → (k, v) ∈ kvs →
        (k, v) ∈ (KubeConfig.toYaml c).objFields) ∧
    (∀ (kvs : List (String × YVal)) (cl : Cluster) (k : String) (v : YVal),
        Cluster.loadObj kvs = .ok cl →
        (kvs.map Prod.fst).Nodup → k ∉ clusterKeys → (k, v) ∈ kvs →
        (k, v) ∈ (Cluster.toYaml cl).objFields) ∧
    (∀ (kvs : List (String × YVal)) (cx : Context) (k : String) (v : YVal),
        Context.loadObj kvs = .ok cx →
        (kvs.map Prod.fst).Nodup → k ∉ contextKeys → (k, v) ∈ kvs →
        (k, v) ∈ (Context.toYaml cx).objFields) ∧
    (∀ (kvs : List (String × YVal)) (u : User) (k : String) (v : YVal),
        User.loadObj kvs = .ok u →
        (kvs.map Prod.fst).Nodup → k ∉ userKeys → (k, v) ∈ kvs →
        (k, v) ∈ (User.toYaml u).objFields) ∧
    (∀ (kvs : List (String × YVal)) (p : AuthProvider) (k : String) (v : YVal),
        AuthProvider.loadObj kvs = .ok p →
        (kvs.map Prod.fst).Nodup → k ∉ authKeys → (k, v) ∈ kvs →
        (k, v) ∈ (AuthProvider.toYaml p).objFields) := by
  refine ⟨?_, ?_, ?_, ?_, ?_⟩
  · intro kvs c k v h hnd hk hmem
    have hcap := loadFields_capture kubeAp KubeConfig.O
      (fun c o => { c with O := o }) (fun b o => rfl)
      (fun b k' v' b' hap => (kubeAp_ok_fields b k' v' b' hap).2.2.2.2)
      kvs default c k v h hnd hmem (fun b v' => kubeAp_unknown k hk b v')
    exact mem_kubeToYaml_of_mem_O c k v (lookup_mem _ _ _ hcap)
  · intro kvs cl k v h hnd hk hmem
    have hcap := loadFields_capture clusterAp Cluster.O
      (fun c o => { c with O := o }) (fun b o => rfl) clusterAp_ok_O
      kvs default cl k v h hnd hmem (fun b v' => clusterAp_unknown k hk b v')
    exact mem_clusterToYaml_of_mem_O cl k v (lookup_mem _ _ _ hcap)
  · intro kvs cx k v h hnd hk hmem
    have hcap := loadFields_capture contextAp Context.O
      (fun c o => { c with O := o }) (fun b o => rfl) contextAp_ok_O
      kvs default cx k v h hnd hmem (fun b v' => contextAp_unknown k hk b v')
    exact mem_contextToYaml_of_mem_O cx k v (lookup_mem _ _ _ hcap)
  · intro kvs u k v h hnd hk hmem
    have hcap := loadFields_capture userAp User.O
      (fun c o => { c with O := o }) (fun b o => rfl) userAp_ok_O
      kvs default u k v h hnd hmem (fun b v' => userAp_unknown k hk b v')
    exact mem_userToYaml_of_mem_O u k v (lookup_mem _ _ _ hcap)
  · intro kvs p k v h hnd hk hmem
    have hcap := loadFields_capture authAp AuthProvider.O
      (fun c o => { c with O := o }) (fun b o => rfl) authAp_ok_O
      kvs default p k v h hnd hmem (fun b v' => authAp_unknown k hk b v')
    exact mem_authToYaml_of_mem_O p k v (lookup_mem _ _ _ hcap)

/-- Witness for C4: a concrete unrecognized key at every level survives
the round trip. -/
theorem openExtension_roundtrip_witness :
    ("extra-top", YVal.str "keep") ∈
      (KubeConfig.toYaml ⟨[], [], [], "", [("extra-top", .str "keep")]⟩).objFields ∧
    ("extra-cluster", YVal.str "kc") ∈
      (Cluster.toYaml ⟨"", "", false, "", "", [("extra-cluster", .str "kc")]⟩).objFields ∧
    ("extra-context", YVal.str "kx") ∈
      (Context.toYaml ⟨"", "", "", [("extra-context", .str "kx")]⟩).objFields ∧
    ("extra-user", YVal.str "ku") ∈
      (User.toYaml ⟨"", "", "", "", "", [], "", "", none, [("extra-user", .str "ku")]⟩).objFields ∧
    ("extra-auth", YVal.str "ka") ∈
      (AuthProvider.toYaml ⟨"", none, [("extra-auth", .str "ka")]⟩).objFields :=
  ⟨openExtension_roundtrip.1 [("extra-top", .str "keep")]
      ⟨[], [], [], "", [("extra-top", .str "keep")]⟩ "extra-top" (.str "keep")
      rfl (by decide) (by decide) (List.Mem.head _),
    openExtension_roundtrip.2.1 [("extra-cluster", .str "kc")]
      ⟨"", "", false, "", "", [("extra-cluster", .str "kc")]⟩ "extra-cluster" (.str "kc")
      rfl (by decide) (by decide) (List.Mem.head _),
    openExtension_roundtrip.2.2.1 [("extra-context", .str "kx")]
      ⟨"", "", "", [("extra-context", .str "kx")]⟩ "extra-context" (.str "kx")
      rfl (by decide) (by decide) (List.Mem.head _),
    openExtension_roundtrip.2.2.2.1 [("extra-user", .str "ku")]
      ⟨"", "", "", "", "", [], "", "", none, [("extra-user", .str "ku")]⟩ "extra-user" (.str "ku")
      rfl (by decide) (by decide) (List.Mem.head _),
    openExtension_roundtrip.2.2.2.2 [("extra-auth", .str "ka")]
      ⟨"", none, [("extra-auth", .str "ka")]⟩ "extra-auth" (.str "ka")
      rfl (by decide) (by decide) (List.Mem.head _)⟩

/-! ### Order preservation of the named-entry sequences -/

/-- How a named wrapper's `Name` is determined by a duplicate-free
entry document: absent `name` key leaves it, a string `name` sets it,
and a non-string `name` cannot load. -/
theorem namedFields_name {X : Type} (pk : String)
    (loadX : YVal → Except String X) (kvs : List (String × YVal))
    (n n' : Named X) (h : namedFields pk loadX n kvs = .ok n')
    (hnd : (kvs.map Prod.fst).Nodup) :
    (kvs.lookup "name" = none → n'.Name = n.Name) ∧
    (∀ s, kvs.lookup "name" = some (.str s) → n'.Name = s) ∧
    (∀ w, kvs.lookup "name" = some w → ∃ s, w = .str s) := by
  induction kvs generalizing n with
  | nil =>
    rw [namedFields] at h
    exact ⟨fun _ => by rw [← Except.ok.inj h], fun s hs => by simp [List.lookup] at hs,
      fun w hw => by simp [List.lookup] at hw⟩
  | cons kv rest ih =>
    obtain ⟨k, v⟩ := kv
    rw [namedFields] at h
    rw [List.map_cons, List.nodup_cons] at hnd
    by_cases hk : k = "name"
    · subst hk
      rw [if_pos rfl] at h
      cases hv : expectStr v with
      | error e =>
        simp only [hv] at h
        exact Except.noConfusion h
      | ok s =>
        simp only [hv] at h
        have hvs : v = .str s := by
          cases v <;> simp [expectStr] at hv
          rw [hv]
        have hlook : ((("name", v)) :: rest).lookup "name" = some v := by
          simp [List.lookup]
        have hrest : rest.lookup "name" = none :=
          lookup_eq_none rest "name" hnd.1
        have ihh := ih { n with Name := s } h hnd.2
        refine ⟨fun hnone => ?_, fun s' hs' => ?_, fun w hw => ?_⟩
        · rw [hlook] at hnone
          exact Option.noConfusion hnone
        · rw [hlook] at hs'
          have : v = .str s' := Option.some.inj hs'
          rw [hvs] at this
          have hss : s = s' := by injection this
          rw [← hss]
          exact ihh.1 hrest
        · rw [hlook] at hw
          exact ⟨s, by rw [← Option.some.inj hw, hvs]⟩
    · rw [if_neg hk] at h
      have hlook : (((k, v)) :: rest).lookup "name" = rest.lookup "name" := by
        rw [List.lookup]
        simp only [beq_eq_false_iff_ne.mpr (fun he : "name" = k => hk he.symm)]
      by_cases hpk : k = pk
      · rw [if_pos hpk] at h
        by_cases hnull : v.isNull = true
        · rw [if_pos hnull] at h
          have ihh := ih n h hnd.2
          exact ⟨fun hnone => ihh.1 (hlook ▸ hnone),
            fun s hs => ihh.2.1 s (hlook ▸ hs),
            fun w hw => ihh.2.2 w (hlook ▸ hw)⟩
        · rw [if_neg hnull] at h
          cases hl : loadX v with
          | error e =>
            simp only [hl] at h
            exact Except.noConfusion h
          | ok x =>
            simp only [hl] at h
            have ihh := ih { n with val := some x } h hnd.2
            exact ⟨fun hnone => ihh.1 (hlook ▸ hnone),
              fun s hs => ihh.2.1 s (hlook ▸ hs),
              fun w hw => ihh.2.2 w (hlook ▸ hw)⟩
      · rw [if_neg hpk] at h
        have ihh := ih n h hnd.2
        exact ⟨fun hnone => ihh.1 (hlook ▸ hnone),
          fun s hs => ihh.2.1 s (hlook ▸ hs),
          fun w hw => ihh.2.2 w (hlook ▸ hw)⟩

/-- A serialized named entry's `name` field is the wrapper's `Name`. -/
theorem namedToYaml_name {X : Type} (pk : String) (toX : X → YVal)
    (n : Named X) : nameOfItem (Named.toYaml pk toX n) = n.Name := rfl

/-- Decoding a sequence of named entries preserves names in order. -/
theorem mapEx_named_names {X : Type} (pk : String)
    (loadX : YVal → Except String X) (items : List YVal)
    (l : List (Named X))
    (h : mapEx (Named.load pk loadX) items = .ok l)
    (hnd : ∀ it ∈ items, (it.objFields.map Prod.fst).Nodup) :
    l.map (fun n => n.Name) = items.map nameOfItem := by
  induction items generalizing l with
  | nil =>
    rw [mapEx] at h
    rw [← Except.ok.inj h]
    rfl
  | cons it rest ih =>
    rw [mapEx] at h
    cases hload : Named.load pk loadX it with
    | error e =>
      simp only [hload] at h
      exact Except.noConfusion h
    | ok n =>
      simp only [hload] at h
      cases hrest : mapEx (Named.load pk loadX) rest with
      | error e =>
        simp only [hrest] at h
        exact Except.noConfusion h
      | ok ns =>
        simp only [hrest] at h
        rw [← Except.ok.inj h]
        simp only [List.map_cons]
        have hhead : n.Name = nameOfItem it := by
          cases it with
          | obj kvs =>
            have hn := namedFields_name pk loadX kvs ⟨"", none⟩ n hload
              (by simpa [YVal.objFields] using hnd (.obj kvs) (List.mem_cons_self _ _))
            show n.Name = nameOfItem (.obj kvs)
            unfold nameOfItem
            cases hlo : (YVal.objFields (.obj kvs)).lookup "name" with
            | none =>
              simp only [hlo]
              exact hn.1 hlo
            | some w =>
              obtain ⟨s, hw⟩ := hn.2.2 w hlo
              subst hw
              simp only [hlo]
              exact hn.2.1 s hlo
          | null => exact Except.noConfusion hload
          | bool b => exact Except.noConfusion hload
          | num x => exact Except.noConfusion hload
          | str x => exact Except.noConfusion hload
          | arr x => exact Except.noConfusion hload
        rw [hhead, ih ns hrest
          (fun it' hm => hnd it' (List.mem_cons_of_mem _ hm))]

/-- C6: loading a document whose `clusters` (resp. `contexts`, `users`)
list has named entries in a given order and serializing the result
preserves exactly that order of names. -/
theorem order_preservation :
    (∀ (items : List YVal) (c : KubeConfig),
        KubeConfig.loadDoc default (.obj [("clusters", .arr items)]) = .ok c →
        (∀ it ∈ items, (it.objFields.map Prod.fst).Nodup) →
        serializedNames "clusters" (KubeConfig.toYaml c) = items.map nameOfItem) ∧
    (∀ (items : List YVal) (c : KubeConfig),
        KubeConfig.loadDoc default (.obj [("contexts", .arr items)]) = .ok c →
        (∀ it ∈ items, (it.objFields.map Prod.fst).Nodup) →
        serializedNames "contexts" (KubeConfig.toYaml c) = items.map nameOfItem) ∧
    (∀ (items : List YVal) (c : KubeConfig),
        KubeConfig.loadDoc default (.obj [("users", .arr items)]) = .ok c →
        (∀ it ∈ items, (it.objFields.map Prod.fst).Nodup) →
        serializedNames "users" (KubeConfig.toYaml c) = items.map nameOfItem) := by
  refine ⟨?_, ?_, ?_⟩
  · intro items c h hnd
    have hap : kubeAp default "clusters" (.arr items) =
        some ((mapEx (Named.load "cluster" Cluster.load) items).map
          (fun l => { (default : KubeConfig) with Clusters := l })) := rfl
    rw [show KubeConfig.loadDoc default (.obj [("clusters", .arr items)]) =
        loadFields kubeAp KubeConfig.O (fun c o => { c with O := o }) default
          [("clusters", .arr items)] from rfl, loadFields, hap] at h
    cases hmap : mapEx (Named.load "cluster" Cluster.load) items with
    | error e =>
      rw [hmap] at h
      exact Except.noConfusion h
    | ok l =>
      rw [hmap] at h
      simp only [Except.map, loadFields] at h
      have hc : c = { (default : KubeConfig) with Clusters := l } :=
        (Except.ok.inj h).symm
      subst hc
      have hnames := mapEx_named_names "cluster" Cluster.load items l hmap hnd
      cases l with
      | nil => exact hnames
      | cons n ns =>
        have hser : serializedNames "clusters"
            (KubeConfig.toYaml { (default : KubeConfig) with Clusters := n :: ns }) =
            ((n :: ns).map (Named.toYaml "cluster" Cluster.toYaml)).map nameOfItem := rfl
        rw [hser, List.map_map]
        exact hnames
  · intro items c h hnd
    have hap : kubeAp default "contexts" (.arr items) =
        some ((mapEx (Named.load "context" Context.load) items).map
          (fun l => { (default : KubeConfig) with Contexts := l })) := rfl
    rw [show KubeConfig.loadDoc default (.obj [("contexts", .arr items)]) =
        loadFields kubeAp KubeConfig.O (fun c o => { c with O := o }) default
          [("contexts", .arr items)] from rfl, loadFields, hap] at h
    cases hmap : mapEx (Named.load "context" Context.load) items with
    | error e =>
      rw [hmap] at h
      exact Except.noConfusion h
    | ok l =>
      rw [hmap] at h
      simp only [Except.map, loadFields] at h
      have hc : c = { (default : KubeConfig) with Contexts := l } :=
        (Except.ok.inj h).symm
      subst hc
      have hnames := mapEx_named_names "context" Context.load items l hmap hnd
      cases l with
      | nil => exact hnames
      | cons n ns =>
        have hser : serializedNames "contexts"
            (KubeConfig.toYaml { (default : KubeConfig) with Contexts := n :: ns }) =
            ((n :: ns).map (Named.toYaml "context" Context.toYaml)).map nameOfItem := rfl
        rw [hser, List.map_map]
        exact hnames
  · intro items c h hnd
    have hap : kubeAp default "users" (.arr items) =
        some ((mapEx (Named.load "user" User.load) items).map
          (fun l => { (default : KubeConfig) with Users := l })) := rfl
    rw [show KubeConfig.loadDoc default (.obj [("users", .arr items)]) =
        loadFields kubeAp KubeConfig.O (fun c o => { c with O := o }) default
          [("users", .arr items)] from rfl, loadFields, hap] at h
    cases hmap : mapEx (Named.load "user" User.load) items with
    | error e =>
      rw [hmap] at h
      exact Except.noConfusion h
    | ok l =>
      rw [hmap] at h
      simp only [Except.map, loadFields] at h
      have hc : c = { (default : KubeConfig) with Users := l } :=
        (Except.ok.inj h).symm
      subst hc
      have hnames := mapEx_named_names "user" User.load items l hmap hnd
      cases l with
      | nil => exact hnames
      | cons n ns =>
        have hser : serializedNames "users"
            (KubeConfig.toYaml { (default : KubeConfig) with Users := n :: ns }) =
            ((n :: ns).map (Named.toYaml "user" User.toYaml)).map nameOfItem := rfl
        rw [hser, List.map_map]
        exact hnames

/-- Witness for C6: a `clusters` list loaded in the order
`[b, a, c]` serializes in the order `[b, a, c]`. -/
theorem order_preservation_witness :
    serializedNames "clusters" (KubeConfig.toYaml
      ⟨[⟨"b", none⟩, ⟨"a", none⟩, ⟨"c", none⟩], [], [], "", []⟩) =
      ["b", "a", "c"] :=
  (order_preservation.1
    [.obj [("name", .str "b")], .obj [("name", .str "a")], .obj [("name", .str "c")]]
    ⟨[⟨"b", none⟩, ⟨"a", none⟩, ⟨"c", none⟩], [], [], "", []⟩
    rfl (by
      intro it hm
      simp only [List.mem_cons, List.not_mem_nil, or_false] at hm
      rcases hm with rfl | rfl | rfl <;> decide)).trans rfl

/-! ### Load semantics with respect to prior receiver state -/

/-- C9 counterexample: loading the same document (which lacks a
`current-context` key) into two receivers that differ in their prior
`Current` value produces two different results, so the loaded state is
not determined solely by the file contents — decoding merges into the
receiver instead of overwriting it. -/
theorem kubeLoad_prior_state_counterexample :
    KubeConfig.loadDoc (⟨[], [], [], "", []⟩ : KubeConfig)
        (.obj [("clusters", .arr [])]) = .ok ⟨[], [], [], "", []⟩ ∧
      KubeConfig.loadDoc (⟨[], [], [], "old", []⟩ : KubeConfig)
        (.obj [("clusters", .arr [])]) = .ok ⟨[], [], [], "old", []⟩ ∧
      (("old" : String) == "") = false :=
  ⟨rfl, rfl, by decide⟩

/-- C9 amended: a successful load merges the document into the
receiver: every named field whose schema key is absent from the
document retains its prior value, and every named field whose schema
key is present (in a duplicate-free document) is overwritten with the
document's decoded value — `current-context` with the document's
string, and each of `clusters`/`contexts`/`users` with the decoded
entry list of the document's sequence. -/
theorem kubeLoad_merge (prior : KubeConfig) (kvs : List (String × YVal))
    (c : KubeConfig) (h : KubeConfig.loadDoc prior (.obj kvs) = .ok c) :
    ((∀ kv ∈ kvs, kv.1 ≠ "clusters") → c.Clusters = prior.Clusters) ∧
    ((∀ kv ∈ kvs, kv.1 ≠ "contexts") → c.Contexts = prior.Contexts) ∧
    ((∀ kv ∈ kvs, kv.1 ≠ "users") → c.Users = prior.Users) ∧
    ((∀ kv ∈ kvs, kv.1 ≠ "current-context") → c.Current = prior.Current) ∧
    ((kvs.map Prod.fst).Nodup →
      ∀ s, ("current-context", YVal.str s) ∈ kvs → c.Current = s) ∧
    ((kvs.map Prod.fst).Nodup → ∀ v, ("clusters", v) ∈ kvs →
      ∃ items l, v = YVal.arr items ∧
        mapEx (Named.load "cluster" Cluster.load) items = .ok l ∧
        c.Clusters = l) ∧
    ((kvs.map Prod.fst).Nodup → ∀ v, ("contexts", v) ∈ kvs →
      ∃ items l, v = YVal.arr items ∧
        mapEx (Named.load "context" Context.load) items = .ok l ∧
        c.Contexts = l) ∧
    ((kvs.map Prod.fst).Nodup → ∀ v, ("users", v) ∈ kvs →
      ∃ items l, v = YVal.arr items ∧
        mapEx (Named.load "user" User.load) items = .ok l ∧
        c.Users = l) := by
  refine ⟨fun hno => ?_, fun hno => ?_, fun hno => ?_, fun hno => ?_,
    fun hnd s hmem => ?_, fun hnd v hmem => ?_, fun hnd v hmem => ?_,
    fun hnd v hmem => ?_⟩
  · exact loadFields_proj kubeAp KubeConfig.O (fun b o => { b with O := o })
      (fun b => b.Clusters) kvs prior c h
      (fun b k v b' hm hap => (kubeAp_ok_fields b k v b' hap).1 (hno (k, v) hm))
      (fun b k v hm hap => rfl)
  · exact loadFields_proj kubeAp KubeConfig.O (fun b o => { b with O := o })
      (fun b => b.Contexts) kvs prior c h
      (fun b k v b' hm hap => (kubeAp_ok_fields b k v b' hap).2.1 (hno (k, v) hm))
      (fun b k v hm hap => rfl)
  · exact loadFields_proj kubeAp KubeConfig.O (fun b o => { b with O := o })
      (fun b => b.Users) kvs prior c h
      (fun b k v b' hm hap => (kubeAp_ok_fields b k v b' hap).2.2.1 (hno (k, v) hm))
      (fun b k v hm hap => rfl)
  · exact loadFields_proj kubeAp KubeConfig.O (fun b o => { b with O := o })
      (fun b => b.Current) kvs prior c h
      (fun b k v b' hm hap => (kubeAp_ok_fields b k v b' hap).2.2.2.1 (hno (k, v) hm))
      (fun b k v hm hap => rfl)
  · exact loadFields_target kubeAp KubeConfig.O (fun b o => { b with O := o })
      (fun b => b.Current) "current-context" (.str s) s kvs prior c h hnd hmem
      (fun b => ⟨{ b with Current := s }, rfl, rfl⟩)
      (fun b k' v' b' hk hap => (kubeAp_ok_fields b k' v' b' hap).2.2.2.1 hk)
      (fun b o => rfl)
  · obtain ⟨b, b', hap⟩ := loadFields_ap_ok kubeAp KubeConfig.O
      (fun b o => { b with O := o }) kvs prior c "clusters" v h hmem
      (fun b => ⟨_, rfl⟩)
    obtain ⟨items, l, hv, hmap, _⟩ := kubeAp_clusters_ok b b' v hap
    subst hv
    refine ⟨items, l, rfl, hmap, ?_⟩
    refine loadFields_target kubeAp KubeConfig.O (fun b o => { b with O := o })
      (fun b => b.Clusters) "clusters" (.arr items) l kvs prior c h hnd hmem
      (fun b => ⟨{ b with Clusters := l }, ?_, rfl⟩)
      (fun b k' v' b' hk hap' => (kubeAp_ok_fields b k' v' b' hap').1 hk)
      (fun b o => rfl)
    rw [show kubeAp b "clusters" (.arr items) =
        some ((mapEx (Named.load "cluster" Cluster.load) items).map
          (fun l => { b with Clusters := l })) from rfl, hmap]
    rfl
  · obtain ⟨b, b', hap⟩ := loadFields_ap_ok kubeAp KubeConfig.O
      (fun b o => { b with O := o }) kvs prior c "contexts" v h hmem
      (fun b => ⟨_, rfl⟩)
    obtain ⟨items, l, hv, hmap, _⟩ := kubeAp_contexts_ok b b' v hap
    subst hv
    refine ⟨items, l, rfl, hmap, ?_⟩
    refine loadFields_target kubeAp KubeConfig.O (fun b o => { b with O := o })
      (fun b => b.Contexts) "contexts" (.arr items) l kvs prior c h hnd hmem
      (fun b => ⟨{ b with Contexts := l }, ?_, rfl⟩)
      (fun b k' v' b' hk hap' => (kubeAp_ok_fields b k' v' b' hap').2.1 hk)
      (fun b o => rfl)
    rw [show kubeAp b "contexts" (.arr items) =
        some ((mapEx (Named.load "context" Context.load) items).map
          (fun l => { b with Contexts := l })) from rfl, hmap]
    rfl
  · obtain ⟨b, b', hap⟩ := loadFields_ap_ok kubeAp KubeConfig.O
      (fun b o => { b with O := o }) kvs prior c "users" v h hmem
      (fun b => ⟨_, rfl⟩)
    obtain ⟨items, l, hv, hmap, _⟩ := kubeAp_users_ok b b' v hap
    subst hv
    refine ⟨items, l, rfl, hmap, ?_⟩
    refine loadFields_target kubeAp KubeConfig.O (fun b o => { b with O := o })
      (fun b => b.Users) "users" (.arr items) l kvs prior c h hnd hmem
      (fun b => ⟨{ b with Users := l }, ?_, rfl⟩)
      (fun b k' v' b' hk hap' => (kubeAp_ok_fields b k' v' b' hap').2.2.1 hk)
      (fun b o => rfl)
    rw [show kubeAp b "users" (.arr items) =
        some ((mapEx (Named.load "user" User.load) items).map
          (fun l => { b with Users := l })) from rfl, hmap]
    rfl

/-- Witness for C9 amended: loading a document that contains a
`clusters` list and a `current-context` into a receiver overwrites
both with the document's decoded values, while the absent `users`
field keeps the receiver's prior value. -/
theorem kubeLoad_merge_witness :
    (⟨[⟨"y", none⟩], [], [⟨"u", none⟩], "new", []⟩ : KubeConfig).Clusters =
        [⟨"y", none⟩] ∧
      (⟨[⟨"y", none⟩], [], [⟨"u", none⟩], "new", []⟩ : KubeConfig).Current =
        "new" ∧
      (⟨[⟨"y", none⟩], [], [⟨"u", none⟩], "new", []⟩ : KubeConfig).Users =
        (⟨[⟨"x", none⟩], [], [⟨"u", none⟩], "old", []⟩ : KubeConfig).Users := by
  have hm := kubeLoad_merge ⟨[⟨"x", none⟩], [], [⟨"u", none⟩], "old", []⟩
    [("clusters", .arr [.obj [("name", .str "y")]]),
      ("current-context", .str "new")]
    ⟨[⟨"y", none⟩], [], [⟨"u", none⟩], "new", []⟩ rfl
  refine ⟨?_, ?_, ?_⟩
  · obtain ⟨items, l, hv, hmap, hcl⟩ := hm.2.2.2.2.2.1 (by decide)
      (.arr [.obj [("name", .str "y")]]) (List.Mem.head _)
    injection hv with hi
    subst hi
    have h0 : mapEx (Named.load "cluster" Cluster.load)
        [.obj [("name", .str "y")]] = .ok [⟨"y", none⟩] := rfl
    exact hcl.trans (Except.ok.inj (h0.symm.trans hmap)).symm
  · exact hm.2.2.2.2.1 (by decide) "new"
      (List.mem_cons_of_mem _ (List.Mem.head _))
  · refine hm.2.2.1 ?_
    intro kv hkv
    simp only [List.mem_cons, List.not_mem_nil, or_false] at hkv
    rcases hkv with rfl | rfl <;> decide

/-! ### `KubeConfig.String` and marshal failure -/

/-- C8 counterexample: when the underlying codec fails, the Go
`String` implementation (`buf, _ := yaml.Marshal(c)`) silently
discards the error and returns the empty string — the failure is not
surfaced as a fatal/unexpected condition, it is swallowed. -/
theorem kubeString_swallow_counterexample :
    kubeConfigStringWith (fun _ => .error "marshal failure")
      (⟨[], [], [], "", []⟩ : KubeConfig) = "" :=
  rfl

/-- C8 amended: `KubeConfig.String` never surfaces an error to the
caller: it returns the marshalled bytes on success, and it silently
returns the empty string (the stringified nil buffer) when the codec
fails — not a fatal condition. -/
theorem kubeString_never_errs (marshal : KubeConfig → Except String String)
    (c : KubeConfig) :
    (∀ r, marshal c = .ok r → kubeConfigStringWith marshal c = r) ∧
    (∀ e, marshal c = .error e → kubeConfigStringWith marshal c = "") := by
  constructor <;> intro x hx <;> simp [kubeConfigStringWith, hx]

/-- Witness for C8 amended: with the modelled total codec the empty
configuration stringifies to the canonical empty mapping, and with a
failing codec the result is the empty string. -/
theorem kubeString_never_errs_witness :
    kubeConfigStringWith kubeMarshal (⟨[], [], [], "", []⟩ : KubeConfig) =
        "\x7b\x7d\n" ∧
      kubeConfigStringWith (fun _ => .error "boom")
        (⟨[], [], [], "", []⟩ : KubeConfig) = "" :=
  ⟨(kubeString_never_errs kubeMarshal ⟨[], [], [], "", []⟩).1 "\x7b\x7d\n" rfl,
    (kubeString_never_errs (fun _ => .error "boom") ⟨[], [], [], "", []⟩).2
      "boom" rfl⟩

/-! ### `AuthProvider` redaction claims -/

/-- C5 counterexample: a value stored in `Config` can appear as a
substring of the redacted display when it coincides with the fixed
rendering text: storing the value `"api"` (the display's own prefix)
makes it a substring of the output. -/
theorem authString_leak_substring_counterexample :
    (⟨"x", some [("token", "api")], []⟩ : AuthProvider).Config =
        some [("token", "api")] ∧
      strContains (authProviderString ⟨"x", some [("token", "api")], []⟩)
        "api" = true :=
  ⟨rfl, rfl⟩

/-- C5 amended: the redacted display renders the (Go-quoted) `Name`
between fixed delimiters; its output is a function of the name and of
whether `Config` is present only — so no stored `Config` value can
influence it — and the empty-but-present `Config` rendering differs
from the absent one. -/
theorem authString_redaction :
    (∀ p q : AuthProvider, p.Name = q.Name →
        p.Config.isSome = q.Config.isSome →
        authProviderString p = authProviderString q) ∧
    (∀ (name : String) (o o' : List (String × YVal)),
        authProviderString ⟨name, some [], o⟩ ≠
          authProviderString ⟨name, none, o'⟩) ∧
    (∀ p : AuthProvider, ∃ pre post : String,
        authProviderString p = pre ++ goQuote p.Name ++ post) := by
  refine ⟨?_, ?_, ?_⟩
  · intro p q hname hsome
    cases hp : p.Config with
    | none =>
      cases hq : q.Config with
      | none => simp [authProviderString, hp, hq, hname]
      | some l =>
        rw [hp, hq] at hsome
        simp at hsome
    | some l =>
      cases hq : q.Config with
      | none =>
        rw [hp, hq] at hsome
        simp at hsome
      | some l' => simp [authProviderString, hp, hq, hname]
  · intro name o o' h
    have e1 : authProviderString ⟨name, some [], o⟩ =
        ((("api.AuthProvider\x7bName: " ++ goQuote name) ++
          ", Config: map[string]string\x7b") ++ "--- REDACTED ---") ++
          "\x7d\x7d" := rfl
    have e2 : authProviderString ⟨name, none, o'⟩ =
        ((("api.AuthProvider\x7bName: " ++ goQuote name) ++
          ", Config: map[string]string\x7b") ++ "<nil>") ++
          "\x7d\x7d" := rfl
    rw [e1, e2] at h
    have hl := congrArg String.length h
    simp only [String.length_append] at hl
    have c1 : ("--- REDACTED ---" : String).length = 16 := by decide
    have c2 : ("<nil>" : String).length = 5 := by decide
    rw [c1, c2] at hl
    omega
  · intro p
    refine ⟨"api.AuthProvider\x7bName: ",
      ", Config: map[string]string\x7b" ++
        (match p.Config with
          | none => "<nil>"
          | some _ => "--- REDACTED ---") ++ "\x7d\x7d", ?_⟩
    cases hp : p.Config <;>
      simp [authProviderString, hp, String.append_assoc]

/-- Witness for C5 amended: a populated `Config` displays exactly as
the empty one. -/
theorem authString_redaction_witness :
    authProviderString ⟨"n", some [("a", "b")], []⟩ =
      authProviderString ⟨"n", some [], []⟩ :=
  authString_redaction.1 ⟨"n", some [("a", "b")], []⟩ ⟨"n", some [], []⟩
    rfl rfl

/-- C10: `AuthProvider.GoString` returns exactly the same string as
`AuthProvider.String`, so the `%#v` and `%v` renderings coincide and
are both redacted. -/
theorem goString_eq_string (p : AuthProvider) :
    authProviderGoString p = authProviderString p :=
  rfl

end K8s
